import Mathlib

/-!
Verification of the `UserManager` component of `src/main.py`, a JSON-backed
user-record store with add / get / list / soft-delete operations.

Modelling choices (shallow embedding):
* A stored record (a Python dict loaded from JSON) is a `Rec` with optional
  fields: a missing dictionary key is `none`, mirroring `dict.get`.
* The `User` dataclass is `User`; `User.to_dict` mirrors `to_dict`.
* The backing file is a `FileState`: absent (`FileNotFoundError`), invalid
  content (`json.JSONDecodeError`), any other read failure (`Exception`), or
  a successfully parsed list of records.  `json.dump`/`json.load` round-trip
  is taken as given; the file stores the parsed value.
* Whether a write succeeds is an environment flag `writeOk` in `World`;
  `save_users` returns it as its boolean result, as `_save_users` reports
  `True` on success and `False` on `IOError`/`Exception`.
* Python exceptions never escape the manager's methods (every method body is
  wrapped in a `try/except` returning a sentinel), so each method is a total
  Lean function returning its result and the updated `World`.
-/

/-- A stored user record: a Python dictionary possibly missing keys.
`none` models a missing key, matching `dict.get`. -/
structure Rec where
  id? : Option Int
  name? : Option String
  email? : Option String
  active? : Option Bool
deriving DecidableEq, Repr

/-- The `User` dataclass of `src/main.py` (`active` defaults to `True`). -/
structure User where
  id : Int
  name : String
  email : String
  active : Bool
deriving DecidableEq, Repr

/-- `User.to_dict`: convert the dataclass to a dictionary with all four keys. -/
def User.to_dict (u : User) : Rec :=
  { id? := some u.id, name? := some u.name, email? := some u.email,
    active? := some u.active }

/-- The state of the backing file: absent, syntactically invalid, failing to
read for another reason, or holding a parsed list of records. -/
inductive FileState where
  | absent
  | invalid
  | readError
  | valid (data : List Rec)
deriving DecidableEq, Repr

/-- The manager's state: the in-memory list `self.users`, the backing file,
and whether writes to the file currently succeed. -/
structure World where
  users : List Rec
  fs : FileState
  writeOk : Bool
deriving DecidableEq, Repr

/-- Python `max(l, default=d)`: `d` when the list is empty, otherwise the
maximum of the list (the default is ignored for a non-empty list). -/
def pyMaxDefault (l : List Int) (d : Int) : Int :=
  match l with
  | [] => d
  | x :: xs => xs.foldl max x

/-- The list comprehension `[user.get("id", 0) for user in self.users]`. -/
def idsOf (users : List Rec) : List Int :=
  users.map (fun r => r.id?.getD 0)

/-- Python `c in s` membership of a character in a string (`"@" in email`),
phrased over the string's character list so it evaluates by reduction. -/
def char_in (c : Char) (s : String) : Bool :=
  s.data.contains c

/-- Stated from the spec's words, for comparison with the code's id
assignment: one greater than the maximum id among existing records, or 1 if
the store was empty. -/
def spec_next_id (ids : List Int) : Int :=
  match ids with
  | [] => 1
  | x :: xs => xs.foldl max x + 1

/-- The loop test `user.get("email") == email` of `add_user`. -/
def emailMatches (email : String) (r : Rec) : Bool :=
  decide (r.email? = some email)

/-- The loop test `user.get("id") == user_id` of `get_user`/`delete_user`. -/
def idMatches (user_id : Int) (r : Rec) : Bool :=
  decide (r.id? = some user_id)

/-- The in-place update `self.users[i]["active"] = False`. -/
def set_active_false (r : Rec) : Rec :=
  { r with active? := some false }

/-- Apply `f` to the element at index `i`, leaving the rest unchanged
(out-of-range indices leave the list unchanged). -/
def modifyNth {α : Type} (f : α → α) : Nat → List α → List α
  | _, [] => []
  | 0, a :: as => f a :: as
  | n + 1, a :: as => a :: modifyNth f n as

/-- `enumerate`-style first index at which `p` holds, as in the
`for i, user in enumerate(self.users)` loop of `delete_user`. -/
def find_index (p : Rec → Bool) : List Rec → Option Nat
  | [] => none
  | r :: rest => if p r then some 0 else (find_index p rest).map (· + 1)

/-- `UserManager._load_users`: return the parsed file content verbatim, or an
empty list on `FileNotFoundError`, `json.JSONDecodeError`, or any other
exception.  No exception escapes. -/
def load_users (fs : FileState) : List Rec :=
  match fs with
  | FileState.valid data => data
  | FileState.absent => []
  | FileState.invalid => []
  | FileState.readError => []

/-- `UserManager.__init__`: load the file and keep the result as the
in-memory list. -/
def init_manager (fs : FileState) (wk : Bool) : World :=
  { users := load_users fs, fs := fs, writeOk := wk }

/-- `UserManager._save_users`: rewrite the whole file from the in-memory
list, returning `True` on success; on `IOError`/`Exception` return `False`
(the exception is swallowed). -/
def save_users (w : World) : Bool × World :=
  if w.writeOk then (true, { w with fs := FileState.valid w.users })
  else (false, w)

/-- `UserManager.add_user`: validation (non-empty name/email, `"@" in email`,
no duplicate email among current records), then id assignment
`max([user.get("id", 0) ...], default=0) + 1`, append of `user.to_dict()`
to the in-memory list, and a save; returns the `User` only when the save
succeeded. -/
def add_user (w : World) (name email : String) : Option User × World :=
  if name = "" ∨ email = "" then (none, w)
  else if ¬ char_in '@' email then (none, w)
  else if w.users.any (emailMatches email) then (none, w)
  else
    let new_id := pyMaxDefault (idsOf w.users) 0 + 1
    let user : User := { id := new_id, name := name, email := email, active := true }
    let w1 : World := { w with users := w.users ++ [user.to_dict] }
    let res := save_users w1
    if res.1 then (some user, res.2) else (none, res.2)

/-- The `User` value constructed by `add_user` once validation has passed:
id `max([user.get("id", 0) ...], default=0) + 1`, `active` defaulted to
`True` by the dataclass. -/
def new_user (users : List Rec) (name email : String) : User :=
  { id := pyMaxDefault (idsOf users) 0 + 1, name := name, email := email,
    active := true }

/-- `UserManager.get_user`: linear scan for the first record with matching
id; `None` when absent. -/
def get_user (users : List Rec) (user_id : Int) : Option Rec :=
  users.find? (idMatches user_id)

/-- `UserManager.list_users`: all records, or only those whose `"active"`
value (default `True`) is truthy. -/
def list_users (users : List Rec) (active_only : Bool) : List Rec :=
  if active_only then users.filter (fun r => r.active?.getD true)
  else users

/-- `UserManager.delete_user`: linear scan; on the first record with matching
id, set `active` to `False` in place and save, returning the save result;
`False` when no record matches. -/
def delete_user (w : World) (user_id : Int) : Bool × World :=
  match find_index (idMatches user_id) w.users with
  | some i =>
      save_users { w with users := modifyNth set_active_false i w.users }
  | none => (false, w)

/-- One call into the manager's mutating/reading interface. -/
inductive Op where
  | addU (name email : String)
  | getU (uid : Int)
  | listU (active_only : Bool)
  | delU (uid : Int)
deriving DecidableEq, Repr

/-- Effect of one operation on the in-memory list; `wk` is whether the file
write in that step (if any) succeeds.  `get_user` and `list_users` never
mutate. -/
def exec_op (wk : Bool) (users : List Rec) (op : Op) : List Rec :=
  match op with
  | Op.addU n e => (add_user { users := users, fs := FileState.absent, writeOk := wk } n e).2.users
  | Op.getU _ => users
  | Op.listU _ => users
  | Op.delU uid => (delete_user { users := users, fs := FileState.absent, writeOk := wk } uid).2.users

/-- Run a sequence of operations, each paired with its write-success flag. -/
def exec_ops : List Rec → List (Bool × Op) → List Rec
  | users, [] => users
  | users, (wk, op) :: rest => exec_ops (exec_op wk users op) rest

/-! ### Helper lemmas -/

theorem save_users_snd_users (w : World) : (save_users w).2.users = w.users := by
  unfold save_users
  split <;> rfl

theorem add_user_valid (w : World) (name email : String)
    (hn : ¬ name = "") (he : ¬ email = "")
    (hat : char_in '@' email = true)
    (hdup : ∀ r ∈ w.users, ¬ r.email? = some email) :
    add_user w name email =
      (if w.writeOk then some (new_user w.users name email) else none,
       { users := w.users ++ [(new_user w.users name email).to_dict],
         fs := if w.writeOk then
                 FileState.valid (w.users ++ [(new_user w.users name email).to_dict])
               else w.fs,
         writeOk := w.writeOk }) := by
  have hany : ¬ (w.users.any (emailMatches email) = true) := by
    rw [List.any_eq_true]
    rintro ⟨r, hr, hp⟩
    rw [emailMatches, decide_eq_true_eq] at hp
    exact hdup r hr hp
  unfold add_user
  rw [if_neg (by simp [hn, he]), if_neg (by simp [hat]), if_neg hany]
  cases hwk : w.writeOk with
  | true => simp [save_users, hwk, new_user]
  | false => simp [save_users, hwk, new_user]

theorem add_user_reject (w : World) (name email : String)
    (h : name = "" ∨ email = "" ∨ char_in '@' email = false ∨
         ∃ r ∈ w.users, r.email? = some email) :
    add_user w name email = (none, w) := by
  unfold add_user
  by_cases h0 : name = "" ∨ email = ""
  · rw [if_pos h0]
  rw [if_neg h0]
  by_cases h1 : ¬ char_in '@' email
  · rw [if_pos h1]
  rw [if_neg h1]
  rcases h with h | h | h | ⟨r, hr, hp⟩
  · exact absurd (Or.inl h) h0
  · exact absurd (Or.inr h) h0
  · exact absurd (by simp [h]) h1
  · rw [if_pos ?_]
    rw [List.any_eq_true]
    exact ⟨r, hr, by rw [emailMatches, decide_eq_true_eq]; exact hp⟩

theorem find_index_eq_none (p : Rec → Bool) (l : List Rec)
    (h : ∀ r ∈ l, p r = false) : find_index p l = none := by
  induction l with
  | nil => rfl
  | cons a as ih =>
    have ha := h a (List.mem_cons_self a as)
    simp [find_index, ha, ih (fun r hr => h r (List.mem_cons_of_mem a hr))]

theorem modifyNth_eq_set {α : Type} (f : α → α) (l : List α) (i : Nat) (r : α)
    (h : l[i]? = some r) : modifyNth f i l = l.set i (f r) := by
  induction l generalizing i with
  | nil => simp at h
  | cons a as ih =>
    cases i with
    | zero =>
      simp only [List.getElem?_cons_zero, Option.some.injEq] at h
      subst h
      rfl
    | succ n =>
      simp only [List.getElem?_cons_succ] at h
      simp [modifyNth, ih n h]

theorem getElem?_modifyNth {α : Type} (f : α → α) (j : Nat) (l : List α) (i : Nat) :
    (modifyNth f j l)[i]? = if i = j then (l[i]?).map f else l[i]? := by
  induction l generalizing i j with
  | nil => simp [modifyNth]
  | cons a as ih =>
    cases j with
    | zero =>
      cases i with
      | zero => simp [modifyNth]
      | succ n => simp [modifyNth]
    | succ m =>
      cases i with
      | zero => simp [modifyNth]
      | succ n => simpa [modifyNth] using ih m n

theorem map_modifyNth {α β : Type} (g : α → β) (f : α → α) (hgf : ∀ a, g (f a) = g a)
    (i : Nat) (l : List α) : (modifyNth f i l).map g = l.map g := by
  induction l generalizing i with
  | nil => cases i <;> rfl
  | cons a as ih =>
    cases i with
    | zero => simp [modifyNth, hgf]
    | succ n => simp [modifyNth, ih]

theorem le_foldl_max (l : List Int) (a : Int) : a ≤ l.foldl max a := by
  induction l generalizing a with
  | nil => exact le_refl a
  | cons x xs ih => exact le_trans (le_max_left a x) (ih (max a x))

theorem mem_le_foldl_max (l : List Int) (a x : Int) (h : x ∈ l) : x ≤ l.foldl max a := by
  induction l generalizing a with
  | nil => cases h
  | cons y ys ih =>
    rcases List.mem_cons.mp h with rfl | h'
    · exact le_trans (le_max_right a x) (le_foldl_max ys (max a x))
    · exact ih (max a y) h'

theorem mem_le_pyMaxDefault (l : List Int) (d x : Int) (h : x ∈ l) :
    x ≤ pyMaxDefault l d := by
  cases l with
  | nil => cases h
  | cons y ys =>
    rcases List.mem_cons.mp h with rfl | h'
    · exact le_foldl_max ys x
    · exact mem_le_foldl_max ys y x h'

theorem getElem?_append_left' {α : Type} (l l' : List α) (i : Nat) (h : i < l.length) :
    (l ++ l')[i]? = l[i]? := by
  induction l generalizing i with
  | nil => exact absurd h (Nat.not_lt_zero i)
  | cons a as ih =>
    cases i with
    | zero => simp
    | succ n => simpa using ih n (Nat.lt_of_succ_lt_succ h)

theorem exec_op_addU (wk : Bool) (users : List Rec) (n e : String) :
    exec_op wk users (Op.addU n e)
      = (add_user { users := users, fs := FileState.absent, writeOk := wk } n e).2.users := rfl

theorem exec_op_delU (wk : Bool) (users : List Rec) (uid : Int) :
    exec_op wk users (Op.delU uid)
      = (delete_user { users := users, fs := FileState.absent, writeOk := wk } uid).2.users := rfl

theorem add_user_users_or (w : World) (n e : String) :
    (add_user w n e).2.users = w.users ∨
    (add_user w n e).2.users = w.users ++ [(new_user w.users n e).to_dict] := by
  by_cases h1 : n = ""
  · exact Or.inl (by rw [add_user_reject w n e (Or.inl h1)])
  by_cases h2 : e = ""
  · exact Or.inl (by rw [add_user_reject w n e (Or.inr (Or.inl h2))])
  by_cases h3 : char_in '@' e = true
  · by_cases h4 : ∃ r ∈ w.users, r.email? = some e
    · exact Or.inl (by rw [add_user_reject w n e (Or.inr (Or.inr (Or.inr h4)))])
    · push_neg at h4
      exact Or.inr (by rw [add_user_valid w n e h1 h2 h3 h4])
  · have h3' : char_in '@' e = false := by
      cases hc : char_in '@' e
      · rfl
      · exact absurd hc h3
    exact Or.inl (by rw [add_user_reject w n e (Or.inr (Or.inr (Or.inl h3')))])

theorem delete_user_users_or (w : World) (uid : Int) :
    (delete_user w uid).2.users = w.users ∨
    ∃ i, (delete_user w uid).2.users = modifyNth set_active_false i w.users := by
  unfold delete_user
  cases h : find_index (idMatches uid) w.users with
  | none => exact Or.inl rfl
  | some i => exact Or.inr ⟨i, by rw [save_users_snd_users]⟩

theorem map_getD_of_map_eq (l : List Rec) (ids : List Int)
    (h : l.map (fun r => r.id?) = ids.map some) :
    l.map (fun r => r.id?.getD 0) = ids := by
  induction l generalizing ids with
  | nil =>
    cases ids with
    | nil => rfl
    | cons x xs => simp at h
  | cons a as ih =>
    cases ids with
    | nil => simp at h
    | cons x xs =>
      simp only [List.map_cons, List.cons.injEq] at h
      obtain ⟨h1, h2⟩ := h
      simp [h1, ih xs h2]

theorem set_active_false_id (a : Rec) : (set_active_false a).id? = a.id? := rfl

theorem exec_op_inv (wk : Bool) (users : List Rec) (op : Op)
    (h1 : (idsOf users).Pairwise (· < ·))
    (h2 : ∀ r ∈ users, r.id?.isSome = true) :
    (idsOf (exec_op wk users op)).Pairwise (· < ·) ∧
    ∀ r ∈ exec_op wk users op, r.id?.isSome = true := by
  cases op with
  | getU uid => exact ⟨h1, h2⟩
  | listU b => exact ⟨h1, h2⟩
  | addU n e =>
    rw [exec_op_addU]
    rcases add_user_users_or { users := users, fs := FileState.absent, writeOk := wk } n e
      with h | h
    · rw [h]; exact ⟨h1, h2⟩
    · rw [h]
      constructor
      · have hids : idsOf (users ++ [(new_user users n e).to_dict])
            = idsOf users ++ [pyMaxDefault (idsOf users) 0 + 1] := by
          simp [idsOf, new_user, User.to_dict]
        rw [hids, List.pairwise_append]
        refine ⟨h1, List.pairwise_singleton _ _, ?_⟩
        intro x hx y hy
        rw [List.mem_singleton] at hy
        subst hy
        rw [Int.lt_add_one_iff]
        exact mem_le_pyMaxDefault (idsOf users) 0 x hx
      · intro r hr
        rcases List.mem_append.mp hr with hr | hr
        · exact h2 r hr
        · rw [List.mem_singleton] at hr
          subst hr
          rfl
  | delU uid =>
    rw [exec_op_delU]
    rcases delete_user_users_or { users := users, fs := FileState.absent, writeOk := wk } uid
      with h | ⟨i, h⟩
    · rw [h]; exact ⟨h1, h2⟩
    · rw [h]
      constructor
      · have hids : (modifyNth set_active_false i users).map (fun r => r.id?.getD 0)
            = users.map (fun r => r.id?.getD 0) :=
          map_modifyNth (fun r => r.id?.getD 0) set_active_false
            (fun a => congrArg (fun o => o.getD 0) (set_active_false_id a)) i users
        rw [show idsOf (modifyNth set_active_false i users) = idsOf users from hids]
        exact h1
      · intro r hr
        have hmap : (modifyNth set_active_false i users).map (fun r => r.id?)
            = users.map (fun r => r.id?) :=
          map_modifyNth (fun r => r.id?) set_active_false set_active_false_id i users
        have hmem : r.id? ∈ users.map (fun r => r.id?) := by
          rw [← hmap]
          exact List.mem_map_of_mem _ hr
        rcases List.mem_map.mp hmem with ⟨r2, hr2, he⟩
        rw [← he]
        exact h2 r2 hr2

theorem exec_ops_inv (steps : List (Bool × Op)) (users : List Rec)
    (h1 : (idsOf users).Pairwise (· < ·))
    (h2 : ∀ r ∈ users, r.id?.isSome = true) :
    (idsOf (exec_ops users steps)).Pairwise (· < ·) ∧
    ∀ r ∈ exec_ops users steps, r.id?.isSome = true := by
  induction steps generalizing users with
  | nil => exact ⟨h1, h2⟩
  | cons s rest ih =>
    obtain ⟨wk, op⟩ := s
    exact ih (exec_op wk users op) (exec_op_inv wk users op h1 h2).1
      (exec_op_inv wk users op h1 h2).2

theorem exec_op_active_false (wk : Bool) (users : List Rec) (op : Op) (i : Nat) (r : Rec)
    (h : users[i]? = some r) (ha : r.active? = some false) :
    ∃ r2, (exec_op wk users op)[i]? = some r2 ∧ r2.active? = some false := by
  cases op with
  | getU uid => exact ⟨r, h, ha⟩
  | listU b => exact ⟨r, h, ha⟩
  | addU n e =>
    rw [exec_op_addU]
    rcases add_user_users_or { users := users, fs := FileState.absent, writeOk := wk } n e
      with h' | h'
    · rw [h', h]; exact ⟨r, rfl, ha⟩
    · rw [h']
      have hi : i < users.length := by
        by_contra hlen
        push_neg at hlen
        rw [List.getElem?_eq_none hlen] at h
        cases h
      rw [getElem?_append_left' users _ i hi, h]
      exact ⟨r, rfl, ha⟩
  | delU uid =>
    rw [exec_op_delU]
    rcases delete_user_users_or { users := users, fs := FileState.absent, writeOk := wk } uid
      with h' | ⟨j, h'⟩
    · rw [h', h]; exact ⟨r, rfl, ha⟩
    · rw [h', getElem?_modifyNth]
      by_cases hij : i = j
      · rw [if_pos hij, h]
        exact ⟨set_active_false r, rfl, rfl⟩
      · rw [if_neg hij, h]
        exact ⟨r, rfl, ha⟩

theorem exec_ops_active_false (steps : List (Bool × Op)) (users : List Rec) (i : Nat) (r : Rec)
    (h : users[i]? = some r) (ha : r.active? = some false) :
    ∃ r2, (exec_ops users steps)[i]? = some r2 ∧ r2.active? = some false := by
  induction steps generalizing users r with
  | nil => exact ⟨r, h, ha⟩
  | cons s rest ih =>
    obtain ⟨wk, op⟩ := s
    obtain ⟨r2, h2, ha2⟩ := exec_op_active_false wk users op i r h ha
    exact ih (exec_op wk users op) r2 h2 ha2

/-! ### Claims -/

/-- C1: for every store whose records all carry an id (listed by `ids`) and
every non-empty name and email such that the email contains a `'@'` and equals
no current record's email, a successful `add_user` returns a user with
`active = true` whose id is one greater than the maximum existing id (1 for an
empty store), and appends its dictionary at the end of the in-memory list. -/
theorem C1_add_valid_unique (w : World) (name email : String) (ids : List Int)
    (hn : ¬ name = "") (he : ¬ email = "")
    (hat : char_in '@' email = true)
    (hdup : ∀ r ∈ w.users, ¬ r.email? = some email)
    (hids : w.users.map (fun r => r.id?) = ids.map some)
    (hwk : w.writeOk = true) :
    ∃ u : User,
      (add_user w name email).1 = some u ∧
      u.active = true ∧
      u.id = spec_next_id ids ∧
      (add_user w name email).2.users = w.users ++ [u.to_dict] := by
  refine ⟨new_user w.users name email, ?_, rfl, ?_, ?_⟩
  · rw [add_user_valid w name email hn he hat hdup]
    simp [hwk]
  · show pyMaxDefault (idsOf w.users) 0 + 1 = _
    have h1 : idsOf w.users = ids :=
      show w.users.map (fun r => r.id?.getD 0) = ids from map_getD_of_map_eq w.users ids hids
    rw [h1]
    cases ids with
    | nil => decide
    | cons x xs => rfl

  · rw [add_user_valid w name email hn he hat hdup]

/-- C1 witness: a concrete successful `add_user` on a one-record store. -/
theorem C1_add_valid_unique_witness :
    ∃ u : User,
      (add_user { users := [{ id? := some 1, name? := some "Ann",
                              email? := some "ann@x.com", active? := some true }],
                  fs := FileState.absent, writeOk := true } "Bo" "bo@x.com").1 = some u ∧
      u.active = true ∧
      u.id = 2 ∧
      (add_user { users := [{ id? := some 1, name? := some "Ann",
                              email? := some "ann@x.com", active? := some true }],
                  fs := FileState.absent, writeOk := true } "Bo" "bo@x.com").2.users
        = [{ id? := some 1, name? := some "Ann", email? := some "ann@x.com",
             active? := some true }] ++ [u.to_dict] :=
  C1_add_valid_unique _ "Bo" "bo@x.com" [1] (by decide) (by decide) (by decide)
    (by decide) (by decide) rfl

/-- C2: `add_user` returns `None` and leaves the in-memory list unchanged when
the name is empty, the email is empty, the email lacks a `'@'`, or the email
equals the email of some existing record (active or not). -/
theorem C2_add_rejects (w : World) (name email : String)
    (h : name = "" ∨ email = "" ∨ char_in '@' email = false ∨
         ∃ r ∈ w.users, r.email? = some email) :
    (add_user w name email).1 = none ∧ (add_user w name email).2.users = w.users := by
  rw [add_user_reject w name email h]
  exact ⟨rfl, rfl⟩

/-- C2 witness: adding a duplicate email blocked by an inactive record. -/
theorem C2_add_rejects_witness :
    (add_user { users := [{ id? := some 1, name? := some "Ann",
                            email? := some "ann@x.com", active? := some false }],
                fs := FileState.absent, writeOk := true } "Bo" "ann@x.com").1 = none ∧
    (add_user { users := [{ id? := some 1, name? := some "Ann",
                            email? := some "ann@x.com", active? := some false }],
                fs := FileState.absent, writeOk := true } "Bo" "ann@x.com").2.users
      = [{ id? := some 1, name? := some "Ann", email? := some "ann@x.com",
           active? := some false }] :=
  C2_add_rejects _ "Bo" "ann@x.com" (by decide)

/-- C3: `delete_user` on the first record carrying the requested id sets only
that record's `active` field to false, leaves its other fields and all other
records unchanged, saves, and returns the save result; when no record carries
the id it returns `false` and leaves the store unchanged. -/
theorem C3_delete_soft (w : World) (uid : Int) :
    (∀ i r, find_index (idMatches uid) w.users = some i → w.users[i]? = some r →
      delete_user w uid =
        (w.writeOk,
         { users := w.users.set i { r with active? := some false },
           fs := if w.writeOk then
                   FileState.valid (w.users.set i { r with active? := some false })
                 else w.fs,
           writeOk := w.writeOk })) ∧
    ((∀ r ∈ w.users, ¬ r.id? = some uid) → delete_user w uid = (false, w)) := by
  constructor
  · intro i r hfind hr
    unfold delete_user
    simp only [hfind]
    rw [modifyNth_eq_set set_active_false w.users i r hr]
    unfold save_users
    cases hwk : w.writeOk with
    | true => simp [hwk, set_active_false]
    | false => simp [hwk, set_active_false]
  · intro hnone
    unfold delete_user
    rw [find_index_eq_none (idMatches uid) w.users
      (fun r hr => decide_eq_false (hnone r hr))]

/-- C3 witness: soft delete of the only record, and a miss on an absent id. -/
theorem C3_delete_soft_witness :
    delete_user { users := [{ id? := some 1, name? := some "Ann", email? := some "ann@x.com", active? := some true }], fs := FileState.absent, writeOk := true } 1
      = (true, { users := [{ id? := some 1, name? := some "Ann", email? := some "ann@x.com", active? := some false }], fs := FileState.valid [{ id? := some 1, name? := some "Ann", email? := some "ann@x.com", active? := some false }], writeOk := true }) ∧
    delete_user { users := [{ id? := some 1, name? := some "Ann", email? := some "ann@x.com", active? := some true }], fs := FileState.absent, writeOk := true } 5
      = (false, { users := [{ id? := some 1, name? := some "Ann", email? := some "ann@x.com", active? := some true }], fs := FileState.absent, writeOk := true }) := by
  constructor
  · have h := (C3_delete_soft { users := [{ id? := some 1, name? := some "Ann", email? := some "ann@x.com", active? := some true }], fs := FileState.absent, writeOk := true } 1).1 0
      { id? := some 1, name? := some "Ann", email? := some "ann@x.com", active? := some true } (by decide) rfl
    simpa using h
  · have h := (C3_delete_soft { users := [{ id? := some 1, name? := some "Ann", email? := some "ann@x.com", active? := some true }], fs := FileState.absent, writeOk := true } 5).2 (by decide)
    simpa using h

/-- C4: round trip - saving the in-memory list and then re-initializing a
manager from the resulting file yields the same list, field for field and in
the same order. -/
theorem C4_round_trip (w : World) (h : w.writeOk = true) :
    (save_users w).1 = true ∧
    (init_manager (save_users w).2.fs (save_users w).2.writeOk).users = w.users := by
  simp [save_users, init_manager, load_users, h]

/-- C4 witness: a concrete save and reload of a one-record store. -/
theorem C4_round_trip_witness :
    (save_users { users := [{ id? := some 2, name? := some "Bo", email? := some "bo@x.com", active? := some false }], fs := FileState.invalid, writeOk := true }).1 = true ∧
    (init_manager (save_users { users := [{ id? := some 2, name? := some "Bo", email? := some "bo@x.com", active? := some false }], fs := FileState.invalid, writeOk := true }).2.fs
        (save_users { users := [{ id? := some 2, name? := some "Bo", email? := some "bo@x.com", active? := some false }], fs := FileState.invalid, writeOk := true }).2.writeOk).users
      = [{ id? := some 2, name? := some "Bo", email? := some "bo@x.com", active? := some false }] :=
  C4_round_trip _ rfl

/-- C5: constructing a manager from an absent file, a file with unparsable
content, or a file whose read fails for any other reason yields an empty
in-memory list; the model of construction is a total function, so no
exception escapes in any of these cases. -/
theorem C5_init_fail_soft (wk : Bool) :
    (init_manager FileState.absent wk).users = [] ∧
    (init_manager FileState.invalid wk).users = [] ∧
    (init_manager FileState.readError wk).users = [] :=
  ⟨rfl, rfl, rfl⟩

/-- C6: `list_users true` returns exactly the records whose `active` field is
not `false` (a missing field counts as active), in original order, and
`list_users false` returns every record in original order. -/
theorem C6_list_filter (users : List Rec) :
    list_users users true = users.filter (fun r => decide (¬ r.active? = some false)) ∧
    list_users users false = users := by
  constructor
  · have hp : (fun r : Rec => r.active?.getD true)
        = (fun r : Rec => decide (¬ r.active? = some false)) := by
      funext r
      cases h : r.active? with
      | none => simp
      | some b => cases b <;> simp
    show users.filter (fun r => r.active?.getD true) = _
    rw [hp]
  · rfl

/-- C7: starting from an empty store, after any sequence of add/get/list/
delete operations every stored record carries an id, the id values are
pairwise distinct, and a further valid `add_user` on the reached store
assigns the id `max(existing ids, default 0) + 1`. -/
theorem C7_ids_unique (steps : List (Bool × Op)) (name email : String) (wk : Bool)
    (hn : ¬ name = "") (he : ¬ email = "")
    (hat : char_in '@' email = true)
    (hdup : ∀ r ∈ exec_ops [] steps, ¬ r.email? = some email) :
    ((idsOf (exec_ops [] steps)).Pairwise (· ≠ ·) ∧
      ∀ r ∈ exec_ops [] steps, r.id?.isSome = true) ∧
    (add_user { users := exec_ops [] steps, fs := FileState.absent, writeOk := wk }
        name email).2.users
      = exec_ops [] steps
        ++ [{ id? := some (pyMaxDefault (idsOf (exec_ops [] steps)) 0 + 1),
              name? := some name, email? := some email, active? := some true }] := by
  have hinv := exec_ops_inv steps [] List.Pairwise.nil (by intro r hr; cases hr)
  refine ⟨⟨hinv.1.imp (fun hab => ne_of_lt hab), hinv.2⟩, ?_⟩
  rw [add_user_valid { users := exec_ops [] steps, fs := FileState.absent, writeOk := wk }
    name email hn he hat hdup]
  rfl

/-- C7 witness: two operations from the empty store, then a further add. -/
theorem C7_ids_unique_witness :
    ((idsOf (exec_ops [] [(true, Op.addU "Ann" "ann@x.com"), (true, Op.delU 1)])).Pairwise (· ≠ ·) ∧
      ∀ r ∈ exec_ops [] [(true, Op.addU "Ann" "ann@x.com"), (true, Op.delU 1)], r.id?.isSome = true) ∧
    (add_user { users := exec_ops [] [(true, Op.addU "Ann" "ann@x.com"), (true, Op.delU 1)], fs := FileState.absent, writeOk := true } "Bo" "bo@x.com").2.users
      = exec_ops [] [(true, Op.addU "Ann" "ann@x.com"), (true, Op.delU 1)]
        ++ [{ id? := some (pyMaxDefault (idsOf (exec_ops [] [(true, Op.addU "Ann" "ann@x.com"), (true, Op.delU 1)])) 0 + 1),
              name? := some "Bo", email? := some "bo@x.com", active? := some true }] :=
  C7_ids_unique [(true, Op.addU "Ann" "ann@x.com"), (true, Op.delU 1)] "Bo" "bo@x.com" true
    (by decide) (by decide) (by decide) (by decide)

/-- C8: the active flag is one-way - a record stored with `active = false`
still has `active = false` (at its position) after any sequence of add/get/
list/delete operations; no operation of the interface reactivates it. -/
theorem C8_active_one_way (users : List Rec) (steps : List (Bool × Op)) (i : Nat) (r : Rec)
    (h : users[i]? = some r) (ha : r.active? = some false) :
    ∃ r2, (exec_ops users steps)[i]? = some r2 ∧ r2.active? = some false :=
  exec_ops_active_false steps users i r h ha

/-- C8 witness: an inactive record stays inactive across add and delete. -/
theorem C8_active_one_way_witness :
    ∃ r2, (exec_ops [{ id? := some 1, name? := some "Ann", email? := some "ann@x.com", active? := some false }]
        [(true, Op.addU "Bo" "bo@x.com"), (true, Op.delU 2)])[0]? = some r2 ∧
      r2.active? = some false :=
  C8_active_one_way [{ id? := some 1, name? := some "Ann", email? := some "ann@x.com", active? := some false }]
    [(true, Op.addU "Bo" "bo@x.com"), (true, Op.delU 2)] 0
    { id? := some 1, name? := some "Ann", email? := some "ann@x.com", active? := some false } rfl rfl

/-- C9: when the write fails after a valid `add_user`'s in-memory append, the
call returns `None` while the new record remains appended to the in-memory
list (the mutation is not rolled back). -/
theorem C9_persist_fail_keeps_append (w : World) (name email : String)
    (hn : ¬ name = "") (he : ¬ email = "")
    (hat : char_in '@' email = true)
    (hdup : ∀ r ∈ w.users, ¬ r.email? = some email)
    (hwk : w.writeOk = false) :
    (add_user w name email).1 = none ∧
    ∃ u : User, u.name = name ∧ u.email = email ∧ u.active = true ∧
      (add_user w name email).2.users = w.users ++ [u.to_dict] := by
  rw [add_user_valid w name email hn he hat hdup]
  exact ⟨by simp [hwk], ⟨new_user w.users name email, rfl, rfl, rfl, rfl⟩⟩

/-- C9 witness: a valid add on an empty store whose write fails. -/
theorem C9_persist_fail_keeps_append_witness :
    (add_user { users := [], fs := FileState.absent, writeOk := false } "Ann" "ann@x.com").1 = none ∧
    ∃ u : User, u.name = "Ann" ∧ u.email = "ann@x.com" ∧ u.active = true ∧
      (add_user { users := [], fs := FileState.absent, writeOk := false } "Ann" "ann@x.com").2.users
        = [] ++ [u.to_dict] :=
  C9_persist_fail_keeps_append _ "Ann" "ann@x.com" (by decide) (by decide) (by decide)
    (by decide) rfl

/-- C10: loading a file that parses as a list of records stores the parsed
value verbatim as the in-memory list - no per-record validation of keys,
field types, id uniqueness, or email format; the records may violate every
documented data-model invariant. -/
theorem C10_load_verbatim (data : List Rec) (wk : Bool) :
    (init_manager (FileState.valid data) wk).users = data := rfl
